import Mathlib

/-!
Verification development for the Internship-Projects repository.

Two programs are covered:

1. The Express HTTP server in src/Docker/main.js (embedded directly from
   the source).

2. The real-time spoken-dialogue orchestrator described by the design
   document. The implementation file voice_agent.py is not part of the
   source tree (only the Voice Bot README is); every definition for it is
   therefore modelled from the specification text, faithful to its words.
-/

namespace DockerSrv

/-- An HTTP request as Express hands it to a route handler: method, path,
headers, query parameters and raw body. -/
structure HttpRequest where
  method : String
  path : String
  headers : List (String × String)
  query : List (String × String)
  body : String
deriving DecidableEq

/-- An HTTP response: status code and a JSON object body, modelled as an
association list of string fields. -/
structure HttpResponse where
  status : Nat
  jsonBody : List (String × String)
deriving DecidableEq

/-- The message literal of src/Docker/main.js line 7. -/
def rootMessage : String := "Hey, I Am Practicing Docker With Node.js"

/-- Embedding of the route handler of src/Docker/main.js lines 6-8: the
handler ignores the request and returns res.json with the constant object. -/
def rootHandler (_req : HttpRequest) : HttpResponse :=
  { status := 200, jsonBody := [("message", rootMessage)] }

/-- Embedding of the Express routing table of src/Docker/main.js: the only
registered route is GET on the root path. -/
def appHandle (req : HttpRequest) : Option HttpResponse :=
  if req.method = "GET" ∧ req.path = "/" then some (rootHandler req) else none

/-- A JavaScript value that can hold process.env.PORT or the numeric
fallback, as in src/Docker/main.js line 4. -/
inductive JsValue where
  | str (s : String)
  | num (n : Nat)
deriving DecidableEq

/-- Embedding of line 4 of src/Docker/main.js: process.env.PORT is either
unset or a string, and the logical-or picks the string whenever it is
truthy; among strings only the empty string is falsy in JavaScript. -/
def choosePort (envPORT : Option String) : JsValue :=
  match envPORT with
  | some s => if s = "" then JsValue.num 8000 else JsValue.str s
  | none => JsValue.num 8000

/-- The running server of src/Docker/main.js line 10: the port is fixed
when app.listen is called. -/
structure Server where
  port : JsValue
deriving DecidableEq

/-- Embedding of app.listen of src/Docker/main.js line 10. -/
def startServer (envPORT : Option String) : Server :=
  { port := choosePort envPORT }

/-- Serving one request leaves the server unchanged and produces the
routed response. -/
def serveOne (sv : Server) (req : HttpRequest) : Server × Option HttpResponse :=
  (sv, appHandle req)

/-- Serving a list of requests in order. -/
def serveAll (sv : Server) (reqs : List HttpRequest) :
    Server × List (Option HttpResponse) :=
  match reqs with
  | [] => (sv, [])
  | r :: rs =>
    let p := serveOne sv r
    let q := serveAll p.1 rs
    (q.1, p.2 :: q.2)

theorem serveAll_port (sv : Server) (reqs : List HttpRequest) :
    (serveAll sv reqs).1 = sv := by
  induction reqs with
  | nil => rfl
  | cons r rs ih => simpa [serveAll, serveOne] using ih

end DockerSrv

namespace VoiceOrch

/-- Modelled from the spec: an AudioFrame is a fixed-size buffer of PCM
samples with a sample rate and a monotonic timestamp (data model section). -/
structure AudioFrame where
  samples : List Int
  sampleRate : Nat
  timestamp : Nat
deriving DecidableEq

/-- Modelled from the spec: a SpeechSegment is an ordered sequence of
AudioFrames between speech-start and speech-end, with an isFinal flag. -/
structure SpeechSegment where
  frames : List AudioFrame
  isFinal : Bool
deriving DecidableEq

/-- Modelled from the spec: the role of a ConversationTurn. -/
inductive Role where
  | user
  | assistant
deriving DecidableEq

/-- Modelled from the spec: a ConversationTurn is role, text and timestamp;
the isFallback mark records the marked fallback turn of Scenario D. -/
structure ConversationTurn where
  role : Role
  text : String
  timestamp : Nat
  isFallback : Bool
deriving DecidableEq

/-- Modelled from the spec: ConversationHistory trimming removes the oldest
turns first, keeping only the last maxTurns turns. -/
def trimHistory (maxTurns : Nat) (h : List ConversationTurn) :
    List ConversationTurn :=
  h.drop (h.length - maxTurns)

/-- Modelled from the spec: appending a turn to the bounded
ConversationHistory, trimming oldest-first when the bound is exceeded. -/
def appendTurn (maxTurns : Nat) (h : List ConversationTurn)
    (t : ConversationTurn) : List ConversationTurn :=
  trimHistory maxTurns (h ++ [t])

theorem appendTurn_length_le (maxTurns : Nat) (h : List ConversationTurn)
    (t : ConversationTurn) : (appendTurn maxTurns h t).length ≤ maxTurns := by
  simp only [appendTurn, trimHistory, List.length_drop, List.length_append,
    List.length_cons, List.length_nil]
  omega

theorem appendTurn_suffix (maxTurns : Nat) (h : List ConversationTurn)
    (t : ConversationTurn) :
    List.IsSuffix (appendTurn maxTurns h t) (h ++ [t]) := by
  simpa [appendTurn, trimHistory] using
    (List.drop_suffix ((h ++ [t]).length - maxTurns) (h ++ [t]))

/-- Modelled from the spec: a Transcript is text, a confidence score (in
percent here) and a reference to the originating segment. -/
structure Transcript where
  text : String
  confidence : Nat
  segment : SpeechSegment
deriving DecidableEq

/-- Modelled from the spec: an STT backend maps a segment to text plus
confidence, or nothing when unreachable; a deterministic backend is a pure
function of the segment. -/
structure STTBackend where
  recognize : SpeechSegment → Option (String × Nat)

/-- Modelled from the spec: adapter-internal bookkeeping of the STTAdapter
(request statistics for logging); it does not influence recognition. -/
structure STTState where
  requests : Nat
deriving DecidableEq

/-- Result of one transcription: a Transcript or the RecognitionFailed
condition (backend unreachable, empty or low-confidence result). -/
inductive SttResult where
  | ok (t : Transcript)
  | recognitionFailed
deriving DecidableEq

/-- Confidence floor below which a result counts as low-confidence
(Scenario B uses one half). -/
def minConfidence : Nat := 50

/-- Modelled from the spec: the STTAdapter transcribe contract. It surfaces
RecognitionFailed for an unreachable backend or an empty or low-confidence
result, rather than throwing. -/
def transcribe (b : STTBackend) (st : STTState) (seg : SpeechSegment) :
    STTState × SttResult :=
  (⟨st.requests + 1⟩,
    match b.recognize seg with
    | none => SttResult.recognitionFailed
    | some p =>
      if p.1 = "" ∨ p.2 < minConfidence then SttResult.recognitionFailed
      else SttResult.ok ⟨p.1, p.2, seg⟩)

/-- Modelled from the spec: a TTSChunk is audio bytes (modelled as a
string), a sequence number, an end-of-utterance flag; here it also carries
the id of the turn whose cancellation token governs it. -/
structure TTSChunk where
  turn : Nat
  seqNo : Nat
  data : String
  endOfUtterance : Bool
deriving DecidableEq

/-- Modelled from the spec: PipelineState is one of the six states of the
Orchestrator state machine, a single authoritative instance. -/
inductive PipelineState where
  | idle
  | listening
  | transcribing
  | thinking
  | speaking
  | interrupted
deriving DecidableEq

/-- Modelled from the spec: configuration of the orchestrator — the history
retention limit, whether an interrupted partial response is kept
(keepPartialOnInterrupt of the design notes), and whether a failed dialogue
call records a marked fallback turn (Scenario D, per configuration). -/
structure Config where
  maxTurns : Nat
  keepPartialOnInterrupt : Bool
  recordFallbackTurn : Bool
deriving DecidableEq

/-- Modelled from the spec: the events the single-threaded Orchestrator
reacts to; dialogue and synthesis events carry the cancellation-token (turn
id) of the generation call that produced them. -/
inductive Event where
  | start
  | vadSpeechStart
  | interruptDone
  | vadSpeechEnd (seg : SpeechSegment)
  | sttOk (text : String) (conf : Nat)
  | sttFailed
  | dmChunk (turn : Nat) (text : String)
  | dmComplete (turn : Nat)
  | dmError (turn : Nat)
  | synthChunk (c : TTSChunk)
  | synthError
  | playChunk
  | playbackDrained
  | queueOverflow
deriving DecidableEq

/-- Modelled from the spec: the full orchestrator state — the authoritative
PipelineState, the ConversationHistory, the accumulated partial assistant
response of the in-flight turn, the cancellation token (turnId) of the
in-flight turn, the AudioPlayback queue, the log of chunks actually played,
a counter of stale chunks played (audio of a superseded turn), the
completion flag of the in-flight generation, and a clock for timestamps. -/
structure OrchState where
  ps : PipelineState
  history : List ConversationTurn
  pendingResp : String
  turnId : Nat
  queue : List TTSChunk
  played : List TTSChunk
  stale : Nat
  dmDone : Bool
  clock : Nat
deriving DecidableEq

/-- Modelled from the spec: the state at pipeline startup (Idle). -/
def initState : OrchState :=
  { ps := PipelineState.idle, history := [], pendingResp := "", turnId := 0,
    queue := [], played := [], stale := 0, dmDone := false, clock := 0 }

/-- Modelled from the spec: the canned apology utterance spoken on
DialogueBackendError. -/
def fallbackText : String := "Sorry, I am having trouble responding right now."

/-- Modelled from the spec: one reaction of the Orchestrator state machine
to an event (transition table of the state-machine section). Barge-in
cancels the dialogue and synthesis calls by advancing the single
cancellation token and flushes the playback queue in the same step; stale
dialogue or synthesis events whose token does not match are ignored;
playing a chunk counts it as stale when its turn is no longer the live
turn. -/
def step (cfg : Config) (s : OrchState) : Event → OrchState
  | Event.start =>
    if s.ps = PipelineState.idle then { s with ps := PipelineState.listening }
    else s
  | Event.vadSpeechStart =>
    if s.ps = PipelineState.transcribing ∨ s.ps = PipelineState.thinking ∨
        s.ps = PipelineState.speaking then
      if cfg.keepPartialOnInterrupt ∧ s.pendingResp ≠ "" then
        { s with
          ps := PipelineState.interrupted
          turnId := s.turnId + 1
          queue := []
          pendingResp := ""
          dmDone := false
          history := appendTurn cfg.maxTurns s.history
            ⟨Role.assistant, s.pendingResp, s.clock, false⟩
          clock := s.clock + 1 }
      else
        { s with
          ps := PipelineState.interrupted
          turnId := s.turnId + 1
          queue := []
          pendingResp := ""
          dmDone := false }
    else s
  | Event.interruptDone =>
    if s.ps = PipelineState.interrupted then
      { s with ps := PipelineState.listening }
    else s
  | Event.vadSpeechEnd _ =>
    if s.ps = PipelineState.listening then
      { s with ps := PipelineState.transcribing }
    else s
  | Event.sttOk text _ =>
    if s.ps = PipelineState.transcribing then
      { s with
        ps := PipelineState.thinking
        turnId := s.turnId + 1
        pendingResp := ""
        dmDone := false
        history := appendTurn cfg.maxTurns s.history
          ⟨Role.user, text, s.clock, false⟩
        clock := s.clock + 1 }
    else s
  | Event.sttFailed =>
    if s.ps = PipelineState.transcribing then
      { s with ps := PipelineState.listening }
    else s
  | Event.dmChunk tid c =>
    if tid = s.turnId ∧ (s.ps = PipelineState.thinking ∨
        s.ps = PipelineState.speaking) then
      { s with
        ps := PipelineState.speaking
        pendingResp := s.pendingResp ++ c }
    else s
  | Event.dmComplete tid =>
    if tid = s.turnId ∧ s.ps = PipelineState.speaking then
      { s with
        history := appendTurn cfg.maxTurns s.history
          ⟨Role.assistant, s.pendingResp, s.clock, false⟩
        pendingResp := ""
        dmDone := true
        clock := s.clock + 1 }
    else s
  | Event.dmError tid =>
    if tid = s.turnId ∧ (s.ps = PipelineState.thinking ∨
        s.ps = PipelineState.speaking) then
      if cfg.recordFallbackTurn then
        { s with
          ps := PipelineState.speaking
          pendingResp := ""
          dmDone := true
          history := appendTurn cfg.maxTurns s.history
            ⟨Role.assistant, fallbackText, s.clock, true⟩
          queue := s.queue ++ [⟨s.turnId, 0, fallbackText, true⟩]
          clock := s.clock + 1 }
      else
        { s with
          ps := PipelineState.speaking
          pendingResp := ""
          dmDone := true
          queue := s.queue ++ [⟨s.turnId, 0, fallbackText, true⟩] }
    else s
  | Event.synthChunk c =>
    if c.turn = s.turnId ∧ s.ps = PipelineState.speaking then
      { s with queue := s.queue ++ [c] }
    else s
  | Event.synthError =>
    if s.ps = PipelineState.speaking then
      { s with
        ps := PipelineState.listening
        queue := []
        turnId := s.turnId + 1
        pendingResp := ""
        dmDone := false }
    else s
  | Event.playChunk =>
    match s.queue with
    | [] => s
    | c :: rest =>
      { s with
        queue := rest
        played := s.played ++ [c]
        stale := s.stale + (if c.turn = s.turnId then 0 else 1) }
  | Event.playbackDrained =>
    if s.ps = PipelineState.speaking ∧ s.dmDone = true ∧ s.queue = [] then
      { s with ps := PipelineState.listening }
    else s
  | Event.queueOverflow => s

/-- Modelled from the spec: the orchestrator reacting to a sequence of
events, one at a time (single-threaded event loop). -/
def orchRun (cfg : Config) (s : OrchState) (evs : List Event) : OrchState :=
  evs.foldl (step cfg) s

/-- Whether an event is one of the error conditions of the error-handling
taxonomy raised by a downstream adapter. -/
def isErrorEvent : Event → Bool
  | Event.sttFailed => true
  | Event.dmError _ => true
  | Event.synthError => true
  | Event.queueOverflow => true
  | _ => false

/-- Modelled from the spec: VADSegmenter configuration — detection
threshold (sensitivity), silence duration required to close a segment
(hangoverMs), minimum segment length (minSpeechMs); frameMs is the fixed
frame duration and speechFrames the count K of consecutive speech-scored
frames that opens a segment. Scores are integers on a 0 to 100 scale. -/
structure VadConfig where
  sensitivity : Nat
  hangoverMs : Nat
  minSpeechMs : Nat
  frameMs : Nat
  speechFrames : Nat
deriving DecidableEq

/-- Modelled from the spec: the internal phase of the VADSegmenter state
machine (Silence or Speech). -/
inductive VadPhase where
  | silence
  | speech
deriving DecidableEq

/-- Modelled from the spec: VADSegmenter internal state — phase, count of
consecutive speech-scored frames while silent, count of consecutive
silence-scored frames while speaking (hangover progress), the frames of
the open segment, and the frames buffered before the segment opens. -/
structure VadState where
  phase : VadPhase
  speechRun : Nat
  silenceRun : Nat
  segFrames : List AudioFrame
  pending : List AudioFrame
deriving DecidableEq

/-- Modelled from the spec: the observe contract returns None, SpeechStart
or SpeechEnd carrying the closed segment. -/
inductive VadEvent where
  | none
  | speechStart
  | speechEnd (seg : SpeechSegment)
deriving DecidableEq

/-- Duration in milliseconds of a frame sequence under a fixed frame
duration. -/
def segmentMs (cfg : VadConfig) (frames : List AudioFrame) : Nat :=
  frames.length * cfg.frameMs

/-- Modelled from the spec: one observe step of the VADSegmenter. In
Silence, a score above the threshold for speechFrames consecutive frames
opens a segment and emits SpeechStart. In Speech, scores below the
threshold accumulate toward the hangover window; when the window elapses
the segment closes and SpeechEnd is emitted only when the segment is at
least minSpeechMs long — shorter segments are discarded silently. -/
def observe (cfg : VadConfig) (score : AudioFrame → Nat) (st : VadState)
    (f : AudioFrame) : VadState × VadEvent :=
  match st.phase with
  | VadPhase.silence =>
    if cfg.sensitivity < score f then
      if cfg.speechFrames ≤ st.speechRun + 1 then
        (⟨VadPhase.speech, 0, 0, st.pending ++ [f], []⟩, VadEvent.speechStart)
      else
        (⟨VadPhase.silence, st.speechRun + 1, 0, [], st.pending ++ [f]⟩,
          VadEvent.none)
    else
      (⟨VadPhase.silence, 0, 0, [], []⟩, VadEvent.none)
  | VadPhase.speech =>
    if cfg.sensitivity < score f then
      (⟨VadPhase.speech, 0, 0, st.segFrames ++ [f], []⟩, VadEvent.none)
    else
      if cfg.hangoverMs ≤ (st.silenceRun + 1) * cfg.frameMs then
        if cfg.minSpeechMs ≤ segmentMs cfg (st.segFrames ++ [f]) then
          (⟨VadPhase.silence, 0, 0, [], []⟩,
            VadEvent.speechEnd ⟨st.segFrames ++ [f], true⟩)
        else
          (⟨VadPhase.silence, 0, 0, [], []⟩, VadEvent.none)
      else
        (⟨VadPhase.speech, 0, st.silenceRun + 1, st.segFrames ++ [f], []⟩,
          VadEvent.none)

/-- Modelled from the spec: the VADSegmenter initial state (Silence, no
buffered frames). -/
def initVad : VadState := ⟨VadPhase.silence, 0, 0, [], []⟩

/-- Modelled from the spec: feeding a sequence of captured frames through
the VADSegmenter, collecting the emitted events in order. -/
def vadRun (cfg : VadConfig) (score : AudioFrame → Nat) (st : VadState) :
    List AudioFrame → VadState × List VadEvent
  | [] => (st, [])
  | f :: fs =>
    let p := observe cfg score st f
    let q := vadRun cfg score p.1 fs
    (q.1, p.2 :: q.2)

end VoiceOrch

namespace VoiceOrch

theorem orchRun_nil (cfg : Config) (s : OrchState) : orchRun cfg s [] = s := rfl

theorem orchRun_cons (cfg : Config) (s : OrchState) (e : Event)
    (evs : List Event) :
    orchRun cfg s (e :: evs) = orchRun cfg (step cfg s e) evs := rfl

theorem string_empty_append (r : String) : "" ++ r = r := by
  cases r
  rfl

theorem step_history_le (cfg : Config) (s : OrchState) (e : Event)
    (h : s.history.length ≤ cfg.maxTurns) :
    (step cfg s e).history.length ≤ cfg.maxTurns := by
  cases e with
  | start => simp only [step]; split_ifs <;> simpa using h
  | vadSpeechStart =>
    simp only [step]
    split_ifs <;> first
      | exact appendTurn_length_le cfg.maxTurns _ _
      | simpa using h
  | interruptDone => simp only [step]; split_ifs <;> simpa using h
  | vadSpeechEnd seg => simp only [step]; split_ifs <;> simpa using h
  | sttOk text conf =>
    simp only [step]
    split_ifs <;> first
      | exact appendTurn_length_le cfg.maxTurns _ _
      | simpa using h
  | sttFailed => simp only [step]; split_ifs <;> simpa using h
  | dmChunk tid c => simp only [step]; split_ifs <;> simpa using h
  | dmComplete tid =>
    simp only [step]
    split_ifs <;> first
      | exact appendTurn_length_le cfg.maxTurns _ _
      | simpa using h
  | dmError tid =>
    simp only [step]
    split_ifs <;> first
      | exact appendTurn_length_le cfg.maxTurns _ _
      | simpa using h
  | synthChunk c => simp only [step]; split_ifs <;> simpa using h
  | synthError => simp only [step]; split_ifs <;> simpa using h
  | playChunk =>
    simp only [step]
    cases s.queue <;> simpa using h
  | playbackDrained => simp only [step]; split_ifs <;> simpa using h
  | queueOverflow => simpa [step] using h

theorem orchRun_history_le (cfg : Config) (evs : List Event) (s : OrchState)
    (h : s.history.length ≤ cfg.maxTurns) :
    (orchRun cfg s evs).history.length ≤ cfg.maxTurns := by
  induction evs generalizing s with
  | nil => simpa [orchRun] using h
  | cons e evs ih =>
    rw [orchRun_cons]
    exact ih _ (step_history_le cfg s e h)

end VoiceOrch

namespace DockerSrv

/-- C9: every HTTP GET request to the root path receives the constant JSON
body with the fixed message, independent of headers, query and body: two
such requests always receive the same response. -/
theorem rootRouteConstantResponse (r1 r2 : HttpRequest)
    (h1m : r1.method = "GET") (h1p : r1.path = "/")
    (h2m : r2.method = "GET") (h2p : r2.path = "/") :
    appHandle r1 =
      some { status := 200, jsonBody := [("message", rootMessage)] } ∧
    appHandle r1 = appHandle r2 := by
  constructor
  · simp [appHandle, rootHandler, h1m, h1p]
  · simp [appHandle, rootHandler, h1m, h1p, h2m, h2p]

theorem rootRouteConstantResponse_witness :
    appHandle ⟨"GET", "/", [("x-test", "1")], [], "somebody"⟩ =
      some { status := 200, jsonBody := [("message", rootMessage)] } ∧
    appHandle ⟨"GET", "/", [("x-test", "1")], [], "somebody"⟩ =
      appHandle ⟨"GET", "/", [], [("q", "2")], ""⟩ :=
  rootRouteConstantResponse ⟨"GET", "/", [("x-test", "1")], [], "somebody"⟩
    ⟨"GET", "/", [], [("q", "2")], ""⟩ rfl rfl rfl rfl

/-- C10: the server listens on the string named by the PORT environment
variable whenever it is set and truthy (for env strings, nonempty), and on
8000 when PORT is unset or empty; serving any sequence of requests leaves
the chosen port unchanged. -/
theorem portSelectionAndStability (s : String) (hs : s ≠ "")
    (reqs : List HttpRequest) :
    choosePort (some s) = JsValue.str s ∧
    choosePort none = JsValue.num 8000 ∧
    choosePort (some "") = JsValue.num 8000 ∧
    (serveAll (startServer (some s)) reqs).1.port = JsValue.str s ∧
    (serveAll (startServer none) reqs).1.port = JsValue.num 8000 := by
  refine ⟨by simp [choosePort, hs], rfl, rfl, ?_, ?_⟩
  · rw [serveAll_port]
    simp [startServer, choosePort, hs]
  · rw [serveAll_port]
    rfl

theorem portSelectionAndStability_witness :
    choosePort (some "3000") = JsValue.str "3000" ∧
    choosePort none = JsValue.num 8000 ∧
    choosePort (some "") = JsValue.num 8000 ∧
    (serveAll (startServer (some "3000"))
      [⟨"GET", "/", [], [], ""⟩]).1.port = JsValue.str "3000" ∧
    (serveAll (startServer none)
      [⟨"GET", "/", [], [], ""⟩]).1.port = JsValue.num 8000 :=
  portSelectionAndStability "3000" (by decide) [⟨"GET", "/", [], [], ""⟩]

end DockerSrv

namespace VoiceOrch

/-- C4: the ConversationHistory of any orchestrator run never exceeds the
configured bound, and appending with trimming always drops the oldest
turns first: the trimmed history is a suffix of the appended sequence, so
the remaining turns keep their append order. -/
theorem historyBoundedAndTrimOldest (cfg : Config) (evs : List Event)
    (h : List ConversationTurn) (t : ConversationTurn) :
    (orchRun cfg initState evs).history.length ≤ cfg.maxTurns ∧
    (appendTurn cfg.maxTurns h t).length ≤ cfg.maxTurns ∧
    List.IsSuffix (appendTurn cfg.maxTurns h t) (h ++ [t]) :=
  ⟨orchRun_history_le cfg evs initState (by simp [initState]),
   appendTurn_length_le cfg.maxTurns h t,
   appendTurn_suffix cfg.maxTurns h t⟩

/-- C7: transcribing the same segment twice through the STTAdapter with a
deterministic backend yields the same result: the outcome is independent
of the adapter-internal state, so an immediate replay returns the same
Transcript. -/
theorem transcribeDeterministic (b : STTBackend) (st1 st2 : STTState)
    (seg : SpeechSegment) :
    (transcribe b st1 seg).2 = (transcribe b st2 seg).2 ∧
    (transcribe b (transcribe b st1 seg).1 seg).2 =
      (transcribe b st1 seg).2 := by
  constructor <;> rfl

/-- The playback soundness invariant: outside the Speaking state the
playback queue is empty, every queued chunk belongs to the live turn, and
no stale chunk has ever been played. -/
def Inv (s : OrchState) : Prop :=
  (s.ps ≠ PipelineState.speaking → s.queue = []) ∧
  (∀ c ∈ s.queue, c.turn = s.turnId) ∧ s.stale = 0

theorem inv_init : Inv initState := by
  refine ⟨fun _ => rfl, ?_, rfl⟩
  intro c hc
  simp [initState] at hc

theorem step_inv (cfg : Config) (s : OrchState) (e : Event) (h : Inv s) :
    Inv (step cfg s e) := by
  obtain ⟨h1, h2, h3⟩ := h
  cases e with
  | start =>
    simp only [step]
    split_ifs with hps
    · exact ⟨fun _ => h1 (by simp [hps]), h2, h3⟩
    · exact ⟨h1, h2, h3⟩
  | vadSpeechStart =>
    simp only [step]
    split_ifs with hps hkeep
    · exact ⟨fun _ => rfl, by simp, h3⟩
    · exact ⟨fun _ => rfl, by simp, h3⟩
    · exact ⟨h1, h2, h3⟩
  | interruptDone =>
    simp only [step]
    split_ifs with hps
    · exact ⟨fun _ => h1 (by simp [hps]), h2, h3⟩
    · exact ⟨h1, h2, h3⟩
  | vadSpeechEnd seg =>
    simp only [step]
    split_ifs with hps
    · exact ⟨fun _ => h1 (by simp [hps]), h2, h3⟩
    · exact ⟨h1, h2, h3⟩
  | sttOk text conf =>
    simp only [step]
    split_ifs with hps
    · have hq : s.queue = [] := h1 (by simp [hps])
      exact ⟨fun _ => hq, by simp [hq], h3⟩
    · exact ⟨h1, h2, h3⟩
  | sttFailed =>
    simp only [step]
    split_ifs with hps
    · exact ⟨fun _ => h1 (by simp [hps]), h2, h3⟩
    · exact ⟨h1, h2, h3⟩
  | dmChunk tid c =>
    simp only [step]
    split_ifs with hg
    · exact ⟨by simp, h2, h3⟩
    · exact ⟨h1, h2, h3⟩
  | dmComplete tid =>
    simp only [step]
    split_ifs with hg
    · exact ⟨fun hc => h1 (by simpa using hc), h2, h3⟩
    · exact ⟨h1, h2, h3⟩
  | dmError tid =>
    simp only [step]
    split_ifs with hg hfb
    · refine ⟨by simp, ?_, h3⟩
      intro c hc
      simp only [List.mem_append, List.mem_singleton] at hc
      rcases hc with hc | hc
      · exact h2 c hc
      · simp [hc]
    · refine ⟨by simp, ?_, h3⟩
      intro c hc
      simp only [List.mem_append, List.mem_singleton] at hc
      rcases hc with hc | hc
      · exact h2 c hc
      · simp [hc]
    · exact ⟨h1, h2, h3⟩
  | synthChunk c =>
    simp only [step]
    split_ifs with hg
    · refine ⟨fun hps => absurd hg.2 (by simpa using hps), ?_, h3⟩
      intro d hd
      simp only [List.mem_append, List.mem_singleton] at hd
      rcases hd with hd | hd
      · exact h2 d hd
      · simpa [hd] using hg.1
    · exact ⟨h1, h2, h3⟩
  | synthError =>
    simp only [step]
    split_ifs with hps
    · exact ⟨fun _ => rfl, by simp, h3⟩
    · exact ⟨h1, h2, h3⟩
  | playChunk =>
    simp only [step]
    cases hq : s.queue with
    | nil => exact ⟨h1, h2, h3⟩
    | cons c rest =>
      have hcq : c.turn = s.turnId := h2 c (by simp [hq])
      refine ⟨?_, ?_, ?_⟩
      · intro hps
        have := h1 (by simpa using hps)
        simp [hq] at this
      · intro d hd
        exact h2 d (by simp [hq]; exact Or.inr hd)
      · simp [hcq, h3]
  | playbackDrained =>
    simp only [step]
    split_ifs with hg
    · exact ⟨fun _ => hg.2.2, h2, h3⟩
    · exact ⟨h1, h2, h3⟩
  | queueOverflow => exact ⟨h1, h2, h3⟩

theorem orchRun_inv (cfg : Config) (evs : List Event) (s : OrchState)
    (h : Inv s) : Inv (orchRun cfg s evs) := by
  induction evs generalizing s with
  | nil => simpa [orchRun] using h
  | cons e evs ih =>
    rw [orchRun_cons]
    exact ih _ (step_inv cfg s e h)

/-- C1: across every sequence of events — barge-ins included — the
AudioPlayback never renders a chunk belonging to a superseded turn: the
stale-play counter of any run from startup is zero, because barge-in
advances the single cancellation token and flushes the queue in one step,
and token-mismatched synthesis output is never enqueued. -/
theorem noStaleAudioEver (cfg : Config) (evs : List Event) :
    (orchRun cfg initState evs).stale = 0 :=
  (orchRun_inv cfg evs initState inv_init).2.2

theorem orchRun_append (cfg : Config) (s : OrchState) (evs1 evs2 : List Event) :
    orchRun cfg s (evs1 ++ evs2) = orchRun cfg (orchRun cfg s evs1) evs2 := by
  simp [orchRun, List.foldl_append]

theorem playAll (cfg : Config) (n : Nat) :
    ∀ s : OrchState, s.queue.length = n →
      (orchRun cfg s (List.replicate n Event.playChunk)).ps = s.ps ∧
      (orchRun cfg s (List.replicate n Event.playChunk)).dmDone = s.dmDone ∧
      (orchRun cfg s (List.replicate n Event.playChunk)).queue = [] := by
  induction n with
  | zero =>
    intro s h
    refine ⟨rfl, rfl, ?_⟩
    simpa [orchRun] using List.length_eq_zero.mp h
  | succ n ih =>
    intro s h
    cases hq : s.queue with
    | nil =>
      rw [hq] at h
      simp at h
    | cons c rest =>
      have hrl : rest.length = n := by
        rw [hq] at h
        simpa using h
      have hps : (step cfg s Event.playChunk).ps = s.ps := by
        simp [step, hq]
      have hdm : (step cfg s Event.playChunk).dmDone = s.dmDone := by
        simp [step, hq]
      have hql : (step cfg s Event.playChunk).queue.length = n := by
        simpa [step, hq] using hrl
      obtain ⟨a, b, c2⟩ := ih _ hql
      rw [List.replicate_succ, orchRun_cons]
      exact ⟨a.trans hps, b.trans hdm, c2⟩

theorem speaking_reach_listening (cfg : Config) (s : OrchState)
    (hps : s.ps = PipelineState.speaking) :
    ∃ evs : List Event, (∀ x ∈ evs, isErrorEvent x = false) ∧
      (orchRun cfg s evs).ps = PipelineState.listening := by
  refine ⟨Event.dmComplete s.turnId ::
    (List.replicate s.queue.length Event.playChunk ++
      [Event.playbackDrained]), ?_, ?_⟩
  · intro x hx
    simp only [List.mem_cons, List.mem_append] at hx
    rcases hx with hx | hx | hx | hx
    · rw [hx]; rfl
    · rw [List.eq_of_mem_replicate hx]; rfl
    · rw [hx]; rfl
    · simp at hx
  · have h1ps : (step cfg s (Event.dmComplete s.turnId)).ps =
        PipelineState.speaking := by
      simp [step, hps]
    have h1dm : (step cfg s (Event.dmComplete s.turnId)).dmDone = true := by
      simp [step, hps]
    have h1q : (step cfg s (Event.dmComplete s.turnId)).queue = s.queue := by
      simp [step, hps]
    rw [orchRun_cons, orchRun_append, orchRun_cons, orchRun_nil]
    set s1 := step cfg s (Event.dmComplete s.turnId) with hs1
    have hlen : s.queue.length = s1.queue.length := by rw [h1q]
    rw [hlen]
    obtain ⟨a, b, c2⟩ := playAll cfg s1.queue.length s1 rfl
    set s2 := orchRun cfg s1 (List.replicate s1.queue.length Event.playChunk)
      with hs2
    have hg : s2.ps = PipelineState.speaking := a.trans h1ps
    have hdm2 : s2.dmDone = true := b.trans h1dm
    simp [step, hg, hdm2, c2]

theorem thinking_reach_listening (cfg : Config) (s : OrchState)
    (hps : s.ps = PipelineState.thinking) :
    ∃ evs : List Event, (∀ x ∈ evs, isErrorEvent x = false) ∧
      (orchRun cfg s evs).ps = PipelineState.listening := by
  obtain ⟨evs, hfree, hrun⟩ := speaking_reach_listening cfg
    (step cfg s (Event.dmChunk s.turnId "ok")) (by simp [step, hps])
  refine ⟨Event.dmChunk s.turnId "ok" :: evs, ?_, ?_⟩
  · intro x hx
    simp only [List.mem_cons] at hx
    rcases hx with hx | hx
    · rw [hx]; rfl
    · exact hfree x hx
  · rw [orchRun_cons]
    exact hrun

theorem reach_listening (cfg : Config) (s : OrchState) :
    ∃ evs : List Event, (∀ x ∈ evs, isErrorEvent x = false) ∧
      (orchRun cfg s evs).ps = PipelineState.listening := by
  cases hps : s.ps with
  | idle =>
    refine ⟨[Event.start], ?_, ?_⟩
    · intro x hx
      simp only [List.mem_singleton] at hx
      rw [hx]; rfl
    · rw [orchRun_cons, orchRun_nil]
      simp [step, hps]
  | listening => exact ⟨[], by simp, by simpa [orchRun] using hps⟩
  | transcribing =>
    obtain ⟨evs, hfree, hrun⟩ := thinking_reach_listening cfg
      (step cfg s (Event.sttOk "ok" 99)) (by simp [step, hps])
    refine ⟨Event.sttOk "ok" 99 :: evs, ?_, ?_⟩
    · intro x hx
      simp only [List.mem_cons] at hx
      rcases hx with hx | hx
      · rw [hx]; rfl
      · exact hfree x hx
    · rw [orchRun_cons]
      exact hrun
  | thinking => exact thinking_reach_listening cfg s hps
  | speaking => exact speaking_reach_listening cfg s hps
  | interrupted =>
    refine ⟨[Event.interruptDone], ?_, ?_⟩
    · intro x hx
      simp only [List.mem_singleton] at hx
      rw [hx]; rfl
    · rw [orchRun_cons, orchRun_nil]
      simp [step, hps]

/-- C2: after any downstream-adapter error event (RecognitionFailed,
DialogueBackendError, SynthesisError, QueueOverflow) the Orchestrator can
always reach the Listening state again by a finite sequence of error-free
events, so no failure path leaves it stuck in any other state; moreover
RecognitionFailed in Transcribing and SynthesisError in Speaking return to
Listening in one transition. -/
theorem errorAlwaysRecoversToListening (cfg : Config) (s : OrchState)
    (e : Event) (_hErr : isErrorEvent e = true) :
    (∃ evs : List Event, (∀ x ∈ evs, isErrorEvent x = false) ∧
      (orchRun cfg (step cfg s e) evs).ps = PipelineState.listening) ∧
    (s.ps = PipelineState.transcribing →
      (step cfg s Event.sttFailed).ps = PipelineState.listening) ∧
    (s.ps = PipelineState.speaking →
      (step cfg s Event.synthError).ps = PipelineState.listening) := by
  refine ⟨reach_listening cfg (step cfg s e), ?_, ?_⟩
  · intro hps
    simp [step, hps]
  · intro hps
    simp [step, hps]

theorem errorAlwaysRecoversToListening_witness :
    (∃ evs : List Event, (∀ x ∈ evs, isErrorEvent x = false) ∧
      (orchRun ⟨10, false, false⟩
        (step ⟨10, false, false⟩ initState Event.sttFailed) evs).ps =
          PipelineState.listening) ∧
    (initState.ps = PipelineState.transcribing →
      (step ⟨10, false, false⟩ initState Event.sttFailed).ps =
        PipelineState.listening) ∧
    (initState.ps = PipelineState.speaking →
      (step ⟨10, false, false⟩ initState Event.synthError).ps =
        PipelineState.listening) :=
  errorAlwaysRecoversToListening ⟨10, false, false⟩ initState
    Event.sttFailed rfl

/-- C8: the Orchestrator owns a single PipelineState value per state
record, its startup value is Idle, no transition from a non-Idle state
ever re-enters Idle, and from every state an error-free event sequence
returns the machine to Listening, the steady resting state between
turns. -/
theorem idleEnteredOnce (cfg : Config) (s : OrchState) (e : Event)
    (h : s.ps ≠ PipelineState.idle) :
    initState.ps = PipelineState.idle ∧
    (step cfg s e).ps ≠ PipelineState.idle ∧
    (∃ evs : List Event, (∀ x ∈ evs, isErrorEvent x = false) ∧
      (orchRun cfg s evs).ps = PipelineState.listening) := by
  refine ⟨rfl, ?_, reach_listening cfg s⟩
  cases e with
  | start => simp only [step]; split_ifs <;> simp_all
  | vadSpeechStart => simp only [step]; split_ifs <;> simp_all
  | interruptDone => simp only [step]; split_ifs <;> simp_all
  | vadSpeechEnd seg => simp only [step]; split_ifs <;> simp_all
  | sttOk text conf => simp only [step]; split_ifs <;> simp_all
  | sttFailed => simp only [step]; split_ifs <;> simp_all
  | dmChunk tid c => simp only [step]; split_ifs <;> simp_all
  | dmComplete tid => simp only [step]; split_ifs <;> simp_all
  | dmError tid => simp only [step]; split_ifs <;> simp_all
  | synthChunk c => simp only [step]; split_ifs <;> simp_all
  | synthError => simp only [step]; split_ifs <;> simp_all
  | playChunk =>
    simp only [step]
    cases hq : s.queue <;> simp_all
  | playbackDrained => simp only [step]; split_ifs <;> simp_all
  | queueOverflow => simpa [step] using h

theorem idleEnteredOnce_witness :
    initState.ps = PipelineState.idle ∧
    (step ⟨10, false, false⟩
      { initState with ps := PipelineState.listening }
      Event.queueOverflow).ps ≠ PipelineState.idle ∧
    (∃ evs : List Event, (∀ x ∈ evs, isErrorEvent x = false) ∧
      (orchRun ⟨10, false, false⟩
        { initState with ps := PipelineState.listening } evs).ps =
          PipelineState.listening) :=
  idleEnteredOnce ⟨10, false, false⟩
    { initState with ps := PipelineState.listening }
    Event.queueOverflow (by decide)

/-- C5: when partial transcripts are not kept, a barge-in never appends a
partial assistant turn — the history is unchanged by the cancellation —
and a DialogueBackendError appends nothing when fallback recording is off;
when fallback recording is on, the failed call contributes exactly one
turn carrying the canned fallback text with the fallback mark, never the
partial response. -/
theorem cancelKeepsHistoryClean (cfg : Config) (s : OrchState) (tid : Nat)
    (hKeep : cfg.keepPartialOnInterrupt = false) :
    (step cfg s Event.vadSpeechStart).history = s.history ∧
    (cfg.recordFallbackTurn = false →
      (step cfg s (Event.dmError tid)).history = s.history) ∧
    (cfg.recordFallbackTurn = true → tid = s.turnId →
      (s.ps = PipelineState.thinking ∨ s.ps = PipelineState.speaking) →
      (step cfg s (Event.dmError tid)).history =
        appendTurn cfg.maxTurns s.history
          ⟨Role.assistant, fallbackText, s.clock, true⟩) := by
  refine ⟨?_, ?_, ?_⟩
  · simp only [step]
    split_ifs with hg hkeep
    · rw [hKeep] at hkeep
      simp at hkeep
    · rfl
    · rfl
  · intro hfb
    simp only [step]
    split_ifs with hg hrec
    · rw [hfb] at hrec
      simp at hrec
    · rfl
    · rfl
  · intro hfb htid hst
    simp only [step]
    rw [if_pos ⟨htid, hst⟩, if_pos hfb]

theorem cancelKeepsHistoryClean_witness :
    (step ⟨10, false, false⟩ initState Event.vadSpeechStart).history =
      initState.history ∧
    ((⟨10, false, false⟩ : Config).recordFallbackTurn = false →
      (step ⟨10, false, false⟩ initState (Event.dmError 0)).history =
        initState.history) ∧
    ((⟨10, false, false⟩ : Config).recordFallbackTurn = true →
      0 = initState.turnId →
      (initState.ps = PipelineState.thinking ∨
        initState.ps = PipelineState.speaking) →
      (step ⟨10, false, false⟩ initState (Event.dmError 0)).history =
        appendTurn (10 : Nat) initState.history
          ⟨Role.assistant, fallbackText, initState.clock, true⟩) :=
  cancelKeepsHistoryClean ⟨10, false, false⟩ initState 0 rfl

/-- Configuration used by the Scenario B run: a ten-turn history bound,
partial transcripts discarded, no fallback turn recorded. -/
def cfgB : Config := ⟨10, false, false⟩

/-- Modelled from the spec: the event sequence of Scenario B — startup,
one finished utterance, one streamed response chunk, one synthesized
chunk, completion, playback and drain. -/
def scenarioB (t r : String) : List Event :=
  [Event.start, Event.vadSpeechEnd ⟨[], true⟩, Event.sttOk t 80,
   Event.dmChunk 1 r, Event.synthChunk ⟨1, 0, r, true⟩, Event.dmComplete 1,
   Event.playChunk, Event.playbackDrained]

/-- C6: a single successful utterance-response cycle from empty history
appends the user turn and then the full assistant response as exactly one
ConversationTurn each, ends with the machine back in Listening and leaves
the history with exactly two turns. -/
theorem successfulTurnAppendsTwo (t r : String) :
    (orchRun cfgB initState (scenarioB t r)).ps = PipelineState.listening ∧
    (orchRun cfgB initState (scenarioB t r)).history =
      [⟨Role.user, t, 0, false⟩, ⟨Role.assistant, r, 1, false⟩] ∧
    (orchRun cfgB initState (scenarioB t r)).history.length = 2 := by
  refine ⟨?_, ?_, ?_⟩ <;>
    simp [scenarioB, orchRun, step, cfgB, initState, appendTurn,
      trimHistory, string_empty_append]

theorem observe_speechEnd_long (cfg : VadConfig) (score : AudioFrame → Nat)
    (st : VadState) (f : AudioFrame) (seg : SpeechSegment)
    (h : (observe cfg score st f).2 = VadEvent.speechEnd seg) :
    cfg.minSpeechMs ≤ segmentMs cfg seg.frames := by
  unfold observe at h
  cases hph : st.phase <;> rw [hph] at h <;> split_ifs at h <;> cases h <;>
    simp_all

/-- C3: over every audio input sequence, from any segmenter state, every
SpeechEnd event the VADSegmenter emits carries a segment at least
minSpeechMs long; shorter segments are silently dropped and never handed
on. -/
theorem vadNeverEmitsShortSegment (cfg : VadConfig)
    (score : AudioFrame → Nat) (st : VadState) (frames : List AudioFrame)
    (seg : SpeechSegment)
    (hmem : VadEvent.speechEnd seg ∈ (vadRun cfg score st frames).2) :
    cfg.minSpeechMs ≤ segmentMs cfg seg.frames := by
  induction frames generalizing st with
  | nil => simp [vadRun] at hmem
  | cons f fs ih =>
    simp only [vadRun, List.mem_cons] at hmem
    rcases hmem with hmem | hmem
    · exact observe_speechEnd_long cfg score st f seg hmem.symm
    · exact ih _ hmem

theorem vadNeverEmitsShortSegment_witness :
    (⟨5, 10, 10, 10, 1⟩ : VadConfig).minSpeechMs ≤
      segmentMs ⟨5, 10, 10, 10, 1⟩
        (⟨[⟨[1], 16000, 0⟩, ⟨[], 16000, 1⟩], true⟩ : SpeechSegment).frames :=
  vadNeverEmitsShortSegment ⟨5, 10, 10, 10, 1⟩
    (fun f => if f.samples = [] then 0 else 10) initVad
    [⟨[1], 16000, 0⟩, ⟨[], 16000, 1⟩]
    ⟨[⟨[1], 16000, 0⟩, ⟨[], 16000, 1⟩], true⟩ (by decide)

end VoiceOrch
